import Mathlib

/-!
# Verification of `EmulationResourceParser.py`

A shallow embedding of the emulation-resource report parser
(`src/EmulationResourceParser.py`) and proofs about it.

Modelling conventions:
* Python strings are modelled as `List Char`; the `String` type is used for
  the stored attribute values of the data model.
* Python `float` arithmetic in the utilization computation is modelled by
  exact rationals (`ℚ`); `round(x, 2)` is modelled by round-half-to-even on
  rationals.
* Python's `re` and `int()` accept Unicode digit/word characters; the model
  covers the ASCII fragment (`Char.isDigit`, `Char.isAlphanum`), which is
  the character set the report format uses.
* Wall-clock state (`self.timestamp`) and raw subprocess output
  (`self.raw_output`), which `parse_output` never derives from its text
  argument, are outside the pure model.
* All partial operations of the source (list indexing, `int()` conversion,
  tuple unpacking) are modelled with `Option`, so every modelled function is
  total by construction: the `try/except (ValueError, IndexError)` recovery
  of the source corresponds to the `none` branches below.
-/

/-- Python ASCII whitespace, the character class stripped by `str.strip()`
and split on by `str.split()`. -/
def isPySpace (c : Char) : Bool :=
  c == ' ' || c == '\t' || c == '\n' || c == '\r' || c == '\x0b' || c == '\x0c'

/-- Python regex `\w` (ASCII fragment): letters, digits and underscore. -/
def isWordCharPy (c : Char) : Bool :=
  c.isAlphanum || c == '_'

/-- `startsWithL p l` models Python `l.startswith(p)` / an anchored literal
regex match on character lists. -/
def startsWithL : List Char → List Char → Bool
  | [], _ => true
  | _ :: _, [] => false
  | p :: ps, c :: cs => p == c && startsWithL ps cs

/-- `containsSub pat l` models Python `pat in l` (substring test). -/
def containsSub (pat : List Char) : List Char → Bool
  | [] => startsWithL pat []
  | c :: cs => startsWithL pat (c :: cs) || containsSub pat cs

/-- Left strip: drop leading Python whitespace. -/
def lstripL (l : List Char) : List Char := l.dropWhile isPySpace

/-- Right strip: drop trailing Python whitespace. -/
def rstripL (l : List Char) : List Char := (l.reverse.dropWhile isPySpace).reverse

/-- Python `str.strip()`: drop surrounding whitespace. -/
def pyStrip (l : List Char) : List Char := rstripL (lstripL l)

/-- Python `str.split(sep)` for a single-character separator: never returns
an empty list (`''.split('\n') == ['']`). -/
def splitOnCharL (sep : Char) : List Char → List (List Char)
  | [] => [[]]
  | c :: cs =>
    if c == sep then
      [] :: splitOnCharL sep cs
    else
      match splitOnCharL sep cs with
      | [] => [[c]]
      | l :: ls => (c :: l) :: ls

/-- Helper for `pySplit`: accumulates the current word (reversed). -/
def pySplitAux : List Char → List Char → List (List Char)
  | acc, [] => if acc.isEmpty then [] else [acc.reverse]
  | acc, c :: cs =>
    if isPySpace c then
      if acc.isEmpty then pySplitAux [] cs else acc.reverse :: pySplitAux [] cs
    else
      pySplitAux (c :: acc) cs

/-- Python `str.split()` with no argument: split on whitespace runs,
dropping empty fields. -/
def pySplit (l : List Char) : List (List Char) := pySplitAux [] l

/-- Digit-run parser for `pyInt`: Python `int()` accepts `_` between digits
(`int("1_0") == 10`) but rejects leading/trailing/doubled underscores.
The accumulator holds the value of the digits consumed so far. -/
def pyDigitsCore : Nat → List Char → Option Nat
  | acc, [] => some acc
  | acc, c :: cs =>
    if c.isDigit then
      pyDigitsCore (10 * acc + (c.toNat - 48)) cs
    else if c == '_' then
      match cs with
      | [] => none
      | d :: cs' =>
        if d.isDigit then pyDigitsCore (10 * acc + (d.toNat - 48)) cs' else none
    else
      none

/-- A nonempty digit run (with Python's internal underscores). -/
def pyDigits : List Char → Option Nat
  | [] => none
  | c :: cs => if c.isDigit then pyDigitsCore (c.toNat - 48) cs else none

/-- Python `int(s)`: optional surrounding whitespace, optional sign,
nonempty digit run; `none` models the `ValueError`. -/
def pyInt (l : List Char) : Option Int :=
  match pyStrip l with
  | '-' :: rest => (pyDigits rest).map (fun n => -(n : Int))
  | '+' :: rest => (pyDigits rest).map (fun n => (n : Int))
  | t => (pyDigits t).map (fun n => (n : Int))

/-! ## Data model (`Domain`, `Board`, `EmulatorResourceParser`) -/

/-- `Domain.__init__`: one allocatable resource slot.  The source also
stores `self.is_free = (owner == 'NONE')` at construction; since nothing in
the module mutates a `Domain`, that attribute is modelled by the derived
function `Domain.is_free` below. -/
structure Domain where
  board : Int
  domain : Int
  owner : String
  pid : String
  t_pod : String
  design : String
  elapsed_time : String
  reserved_key : String
deriving Repr, DecidableEq

/-- `self.is_free = (owner == 'NONE')` from `Domain.__init__`. -/
def Domain.is_free (d : Domain) : Bool := d.owner == "NONE"

/-- `Domain.get_full_id`: `"{}.{}".format(board, domain)`. -/
def Domain.get_full_id (d : Domain) : String :=
  toString d.board ++ "." ++ toString d.domain

/-- `Board.__init__`. -/
structure Board where
  board_id : Int
  cluster_id : Option Int
  status : String
  domains : List Domain
deriving Repr, DecidableEq

/-- `Board.add_domain`. -/
def Board.add_domain (b : Board) (d : Domain) : Board :=
  { b with domains := b.domains ++ [d] }

/-- `Board.get_free_domains`. -/
def Board.get_free_domains (b : Board) : List Domain :=
  b.domains.filter (fun d => d.is_free)

/-- `Board.get_used_domains`. -/
def Board.get_used_domains (b : Board) : List Domain :=
  b.domains.filter (fun d => !d.is_free)

/-- The parser/aggregate state of class `EmulatorResourceParser`
(`timestamp` and `raw_output` are not modelled, see the header comment). -/
structure EmulatorResourceParser where
  emulator_name : Option String
  hardware : Option String
  configmgr : Option String
  system_status : Option String
  boards : List Board
deriving Repr, DecidableEq

/-- `EmulatorResourceParser.__init__`: all metadata `None`, no boards. -/
def emptyModel : EmulatorResourceParser :=
  { emulator_name := none, hardware := none, configmgr := none,
    system_status := none, boards := [] }

/-! ## Regex models

The source uses four `re.search` patterns on the header line and two
anchored `re.match` patterns for cluster and board lines.  Each is modelled
by a function implementing the backtracking semantics of the concrete
pattern on `List Char`. -/

/-- The literal `"Emulator:"`. -/
def emuLit : List Char := ['E', 'm', 'u', 'l', 'a', 't', 'o', 'r', ':']

/-- The literal `"Hardware:"`. -/
def hwLit : List Char := ['H', 'a', 'r', 'd', 'w', 'a', 'r', 'e', ':']

/-- The literal `"Configmgr:"`. -/
def cfgLit : List Char := ['C', 'o', 'n', 'f', 'i', 'g', 'm', 'g', 'r', ':']

/-- The literal `"System Status:"`. -/
def statusLit : List Char :=
  ['S', 'y', 's', 't', 'e', 'm', ' ', 'S', 't', 'a', 't', 'u', 's', ':']

/-- Consume a literal at the start of the input (an anchored literal regex
atom); `none` if the literal is not a prefix. -/
def eatLit (lit l : List Char) : Option (List Char) :=
  if startsWithL lit l then some (l.drop lit.length) else none

/-- `\d+` (greedy): a nonempty ASCII digit run and its value.  In every
pattern of the source the character after `\d+` is not a digit, so the
greedy maximal munch is exact. -/
def eatDigits1 (l : List Char) : Option (Nat × List Char) :=
  let ds := l.takeWhile Char.isDigit
  if ds.isEmpty then none
  else some (ds.foldl (fun a c => 10 * a + (c.toNat - 48)) 0, l.dropWhile Char.isDigit)

/-- `\s+` (greedy): at least one whitespace character.  In every pattern of
the source the character after `\s+` is not whitespace, so maximal munch is
exact. -/
def eatWs1 : List Char → Option (List Char)
  | [] => none
  | c :: cs => if isPySpace c then some ((c :: cs).dropWhile isPySpace) else none

/-- `(\w+)` (greedy) at the end of a pattern: a nonempty word-character
run. -/
def eatWord1 (l : List Char) : Option (List Char × List Char) :=
  let w := l.takeWhile isWordCharPy
  if w.isEmpty then none else some (w, l.dropWhile isWordCharPy)

/-- `re.match(r'Cluster (\d+) has \d+ boards\s+CCD: (\w+)', line)`:
returns the cluster number (group 1); group 2 must match but its value is
unused by the source.  `re.match` is anchored but allows trailing text. -/
def clusterMatch (l : List Char) : Option Nat := do
  let r ← eatLit ['C', 'l', 'u', 's', 't', 'e', 'r', ' '] l
  let (n, r) ← eatDigits1 r
  let r ← eatLit [' ', 'h', 'a', 's', ' '] r
  let (_, r) ← eatDigits1 r
  let r ← eatLit [' ', 'b', 'o', 'a', 'r', 'd', 's'] r
  let r ← eatWs1 r
  let r ← eatLit ['C', 'C', 'D', ':', ' '] r
  let (_, _) ← eatWord1 r
  pure n

/-- `re.match(r'Board\s+(\d+) has\s+\d+ domains\s+Board: (\w+)', line)`:
returns the board id (group 1) and the status token (group 2). -/
def boardMatch (l : List Char) : Option (Nat × List Char) := do
  let r ← eatLit ['B', 'o', 'a', 'r', 'd'] l
  let r ← eatWs1 r
  let (bid, r) ← eatDigits1 r
  let r ← eatLit [' ', 'h', 'a', 's'] r
  let r ← eatWs1 r
  let (_, r) ← eatDigits1 r
  let r ← eatLit [' ', 'd', 'o', 'm', 'a', 'i', 'n', 's'] r
  let r ← eatWs1 r
  let r ← eatLit ['B', 'o', 'a', 'r', 'd', ':', ' '] r
  let (w, _) ← eatWord1 r
  pure (bid, w)

/-- Unanchored scan of `re.search`: try the match at every start position,
leftmost first (including the empty suffix at the very end). -/
def reSearch (tryAt : List Char → Option α) : List Char → Option α
  | [] => tryAt []
  | c :: rest =>
    match tryAt (c :: rest) with
    | some r => some r
    | none => reSearch tryAt rest

/-- Match attempt at one position for `Emulator:\s*(\S+)` (and, with a
different literal, `Configmgr:\s*(\S+)`): after the literal, greedy `\s*`
then a nonempty non-space run.  Backtracking `\s*` cannot rescue a failure
because a shorter `\s*` exposes a whitespace character to `\S+`. -/
def tryTokenAfter (lit : List Char) (l : List Char) : Option (List Char) :=
  (eatLit lit l).bind fun r =>
    let r2 := r.dropWhile isPySpace
    let w := r2.takeWhile (fun c => !isPySpace c)
    if w.isEmpty then none else some w

/-- Match attempt at one position for `System Status:\s*(\w+)`: as
`tryTokenAfter` but with a word-character run; if the first character after
the whitespace is not a word character the attempt fails. -/
def tryWordAfter (lit : List Char) (l : List Char) : Option (List Char) :=
  (eatLit lit l).bind fun r =>
    let r2 := r.dropWhile isPySpace
    let w := r2.takeWhile isWordCharPy
    if w.isEmpty then none else some w

/-- The lookahead `(?=Configmgr:|$)` of the hardware pattern (header lines
contain no newline, so `$` is end of input). -/
def hwLookahead (l : List Char) : Bool :=
  l.isEmpty || startsWithL cfgLit l

/-- The lazy `[\w\s]+?` of `Hardware:\s*([\w\s]+?)(?=Configmgr:|$)` after
its first character has been consumed into `cap`: check the lookahead
before each further character; a character outside `[\w\s]` fails the
attempt. -/
def hwGrow : List Char → List Char → Option (List Char)
  | cap, [] => some cap
  | cap, c :: cs =>
    if hwLookahead (c :: cs) then some cap
    else if isWordCharPy c || isPySpace c then hwGrow (cap ++ [c]) cs
    else none

/-- The greedy `\s*` before `([\w\s]+?)` in the hardware pattern: eat as
much whitespace as possible first, and on failure backtrack one whitespace
character at a time into the capture (whitespace is also in `[\w\s]`).
The capture must be nonempty, so its first character is consumed here. -/
def hwStar : List Char → Option (List Char)
  | [] => none
  | c :: cs =>
    if isPySpace c then
      match hwStar cs with
      | some r => some r
      | none => hwGrow [c] cs
    else if isWordCharPy c then hwGrow [c] cs
    else none

/-- Match attempt at one position for the hardware pattern. -/
def tryHardware (l : List Char) : Option (List Char) :=
  (eatLit hwLit l).bind hwStar

/-- The four optional header fields. -/
structure HeaderFields where
  emulator_name : Option String
  hardware : Option String
  configmgr : Option String
  system_status : Option String
deriving Repr, DecidableEq

/-- `EmulatorResourceParser._parse_header`: four independent `re.search`
calls; a failed search leaves the field `None`.  Only the hardware capture
is `.strip()`ped by the source. -/
def parseHeaderFields (header : List Char) : HeaderFields :=
  { emulator_name := (reSearch (tryTokenAfter emuLit) header).map (fun w => String.mk w)
    hardware := (reSearch tryHardware header).map (fun w => String.mk (pyStrip w))
    configmgr := (reSearch (tryTokenAfter cfgLit) header).map (fun w => String.mk w)
    system_status := (reSearch (tryWordAfter statusLit) header).map (fun w => String.mk w) }

/-! ## The line-classifying fold of `parse_output` -/

/-- The loop state of `parse_output`: `current_cluster` and the board list.
In the source, `current_board` is always the most recently appended board
(boards are only created in the board branch, where they are simultaneously
appended and made current), so `current_board is not None` is modelled as
`boards ≠ []` and `current_board.add_domain` as modifying the last board. -/
structure ParseState where
  current_cluster : Option Int
  boards : List Board
deriving Repr, DecidableEq

/-- Replace the last element of a board list (the source's mutation of
`current_board`, which is the last appended board). -/
def modifyLast (f : Board → Board) : List Board → List Board
  | [] => []
  | [b] => [f b]
  | b :: b' :: bs => b :: modifyLast f (b' :: bs)

/-- The body of the `try:` block of the domain branch: index `parts[0]`,
test `'.' in domain_id`, split on `'.'`, unpack into exactly two values and
convert both with `int` (`none` models both the silent fall-through when
there is no dot and the caught `ValueError`). -/
def parseDomainId (f : List Char) : Option (Int × Int) :=
  if f.contains '.' then
    match splitOnCharL '.' f with
    | [bs, ds] =>
      match pyInt bs, pyInt ds with
      | some bn, some dn => some (bn, dn)
      | _, _ => none
    | _ => none
  else none

/-- Field extraction of the domain branch, on the whitespace-split fields
(only called under the `len(parts) >= 8` guard, so the `getD` defaults at
indices 1–7 are never taken).  Mirrors:
`t_pod = parts[5] if parts[5] != '--' else ''`,
`elapsed_time = parts[7] if len(parts) > 7 else '--'`,
`reserved_key = parts[8] if len(parts) > 8 else '--'`. -/
def parseDomainFields (parts : List (List Char)) : Option Domain :=
  match parseDomainId (parts.getD 0 []) with
  | none => none
  | some (bn, dn) =>
    some { board := bn
           domain := dn
           owner := String.mk (parts.getD 1 [])
           pid := String.mk (parts.getD 2 [])
           t_pod := if parts.getD 5 [] = ['-', '-'] then "" else String.mk (parts.getD 5 [])
           design := String.mk (parts.getD 6 [])
           elapsed_time := if 7 < parts.length then String.mk (parts.getD 7 []) else "--"
           reserved_key := if 8 < parts.length then String.mk (parts.getD 8 []) else "--" }

/-- One iteration of the `for line in lines[1:]` loop of `parse_output`:
strip the line, then the `if/elif` classification chain (blank, cluster,
board, domain, anything else). -/
def processLine (st : ParseState) (raw : List Char) : ParseState :=
  let line := pyStrip raw
  if line = [] then st
  else if startsWithL ['C', 'l', 'u', 's', 't', 'e', 'r'] line then
    match clusterMatch line with
    | some n => { st with current_cluster := some (n : Int) }
    | none => st
  else if startsWithL ['B', 'o', 'a', 'r', 'd'] line
      && containsSub ['h', 'a', 's'] line
      && containsSub ['d', 'o', 'm', 'a', 'i', 'n', 's'] line then
    match boardMatch line with
    | some (bid, status) =>
      { st with boards := st.boards
          ++ [{ board_id := (bid : Int), cluster_id := st.current_cluster,
                status := String.mk status, domains := [] }] }
    | none => st
  else if startsWithL ['D', 'o', 'm', 'a', 'i', 'n'] line
      || (decide (5 ≤ line.length) && (line.take 5).contains '.') then
    if containsSub ['O', 'w', 'n', 'e', 'r'] line
        && containsSub ['P', 'I', 'D'] line then st
    else
      let parts := pySplit line
      if decide (8 ≤ parts.length) && !st.boards.isEmpty then
        match parseDomainFields parts with
        | some d => { st with boards := modifyLast (fun b => b.add_domain d) st.boards }
        | none => st
      else st
  else st

/-- `EmulatorResourceParser.parse_output`: reset the board list, strip the
whole text, split into lines, parse line 0 as the header and fold the
classifier over the remaining lines.  (`output.strip().split('\n')` is
never empty, so the `if lines:` guard of the source always passes; the
dead empty case keeps the previous header fields, as the source would.) -/
def EmulatorResourceParser.parse_output
    (m : EmulatorResourceParser) (output : List Char) : EmulatorResourceParser :=
  match splitOnCharL '\n' (pyStrip output) with
  | [] => { m with boards := [] }
  | header :: rest =>
    let hd := parseHeaderFields header
    let fin := rest.foldl processLine { current_cluster := none, boards := [] }
    { emulator_name := hd.emulator_name
      hardware := hd.hardware
      configmgr := hd.configmgr
      system_status := hd.system_status
      boards := fin.boards }

/-! ## Queries and aggregation -/

/-- The per-board filter `cluster is None or board.cluster_id == cluster`
(Python `None == k` is false, matching `Option` equality here). -/
def clusterOk (cluster : Option Int) (b : Board) : Bool :=
  match cluster with
  | none => true
  | some k => b.cluster_id == some k

/-- `get_free_domains(cluster=None)`: extend over the boards passing the
filter, in board order. -/
def EmulatorResourceParser.get_free_domains
    (m : EmulatorResourceParser) (cluster : Option Int := none) : List Domain :=
  (m.boards.filter (clusterOk cluster)).flatMap Board.get_free_domains

/-- `get_used_domains(cluster=None)`. -/
def EmulatorResourceParser.get_used_domains
    (m : EmulatorResourceParser) (cluster : Option Int := none) : List Domain :=
  (m.boards.filter (clusterOk cluster)).flatMap Board.get_used_domains

/-- Insert a used domain into the owner-keyed groups, preserving
first-seen key order (Python dicts iterate in insertion order). -/
def addToGroups : List (String × List Domain) → Domain → List (String × List Domain)
  | [], d => [(d.owner, [d])]
  | (k, ds) :: rest, d =>
    if k = d.owner then (k, ds ++ [d]) :: rest else (k, ds) :: addToGroups rest d

/-- `get_domains_by_user`: group the used domains (scanning boards in
order) by owner. -/
def EmulatorResourceParser.get_domains_by_user
    (m : EmulatorResourceParser) : List (String × List Domain) :=
  (m.get_used_domains none).foldl addToGroups []

/-- `get_board`: first board with the given id, else `None`. -/
def EmulatorResourceParser.get_board
    (m : EmulatorResourceParser) (board_id : Int) : Option Board :=
  m.boards.find? (fun b => b.board_id == board_id)

/-- The dictionary returned by `get_resource_summary` (Python floats as
exact rationals). -/
structure ResourceSummary where
  emulator : Option String
  hardware : Option String
  system_status : Option String
  total_boards : Nat
  total_domains : Nat
  free_domains : Nat
  used_domains : Nat
  utilization_percent : ℚ
  users : List String
deriving Repr, DecidableEq

/-- `get_resource_summary`:
`utilization_percent = (used / total * 100) if total > 0 else 0`. -/
def EmulatorResourceParser.get_resource_summary
    (m : EmulatorResourceParser) : ResourceSummary :=
  let total_domains := (m.boards.map (fun b => b.domains.length)).sum
  let free_domains := (m.get_free_domains none).length
  let used_domains := (m.get_used_domains none).length
  { emulator := m.emulator_name
    hardware := m.hardware
    system_status := m.system_status
    total_boards := m.boards.length
    total_domains := total_domains
    free_domains := free_domains
    used_domains := used_domains
    utilization_percent :=
      if 0 < total_domains then (used_domains : ℚ) / (total_domains : ℚ) * 100 else 0
    users := (m.get_domains_by_user).map Prod.fst }

/-- Round half to even at integer precision (Python `round` on exact
values; binary-float representation error is not modelled). -/
def roundHalfEven (q : ℚ) : ℤ :=
  if q - ⌊q⌋ < 1 / 2 then ⌊q⌋
  else if 1 / 2 < q - ⌊q⌋ then ⌊q⌋ + 1
  else if ⌊q⌋ % 2 = 0 then ⌊q⌋ else ⌊q⌋ + 1

/-- Python `round(x, 2)` on exact values. -/
def pyRound2 (q : ℚ) : ℚ := (roundHalfEven (q * 100) : ℚ) / 100

/-- One per-domain record of the `domains_by_user` JSON section. -/
structure JsonDomainDetail where
  id : String
  board : Int
  domain : Int
  pid : String
  t_pod : String
  design : String
  elapsed_time : String
  reserved_key : String
deriving Repr, DecidableEq

/-- One record of the `free_domains` JSON section. -/
structure JsonFreeDomain where
  id : String
  board : Int
  domain : Int
deriving Repr, DecidableEq

/-- The numeric block `resource_summary` of the JSON structure, with
`utilization_percent` rounded to two decimals. -/
structure JsonResourceNums where
  total_boards : Nat
  total_domains : Nat
  used_domains : Nat
  free_domains : Nat
  utilization_percent : ℚ
deriving Repr, DecidableEq

/-- The JSON-serializable structure built by `get_json_summary`
(`json.dumps` serialization itself is presentation and not modelled;
`timestamp` is wall-clock state and not modelled). -/
structure JsonSummary where
  emulator : Option String
  hardware : Option String
  configmgr : Option String
  system_status : Option String
  resource_summary : JsonResourceNums
  domains_by_user : List (String × Nat × List JsonDomainDetail)
  free_domains : List JsonFreeDomain
deriving Repr, DecidableEq

/-- `get_json_summary`: a pure projection of the model state. -/
def EmulatorResourceParser.get_json_summary
    (m : EmulatorResourceParser) : JsonSummary :=
  let summary := m.get_resource_summary
  { emulator := summary.emulator
    hardware := summary.hardware
    configmgr := m.configmgr
    system_status := summary.system_status
    resource_summary :=
      { total_boards := summary.total_boards
        total_domains := summary.total_domains
        used_domains := summary.used_domains
        free_domains := summary.free_domains
        utilization_percent := pyRound2 summary.utilization_percent }
    domains_by_user :=
      m.get_domains_by_user.map (fun g =>
        (g.1, g.2.length, g.2.map (fun d =>
          { id := d.get_full_id, board := d.board, domain := d.domain,
            pid := d.pid, t_pod := d.t_pod, design := d.design,
            elapsed_time := d.elapsed_time, reserved_key := d.reserved_key })))
    free_domains :=
      (m.get_free_domains none).map (fun d =>
        { id := d.get_full_id, board := d.board, domain := d.domain }) }

/-! ## Claims -/

/-- **C1.** For every input text the modelled `parse_output` is a total
function (all partial operations of the source are modelled with `Option`
and handled, mirroring the per-line `try/except` recovery), and parsing the
empty string yields a model with zero boards, zero total/used/free domains,
utilization `0` and an empty owner list. -/
theorem c1_empty_input (m : EmulatorResourceParser) :
    (m.parse_output "".toList).boards = []
    ∧ (m.parse_output "".toList).get_resource_summary.total_boards = 0
    ∧ (m.parse_output "".toList).get_resource_summary.total_domains = 0
    ∧ (m.parse_output "".toList).get_resource_summary.used_domains = 0
    ∧ (m.parse_output "".toList).get_resource_summary.free_domains = 0
    ∧ (m.parse_output "".toList).get_resource_summary.utilization_percent = 0
    ∧ (m.parse_output "".toList).get_resource_summary.users = [] := by
  exact ⟨rfl, rfl, rfl, rfl, rfl, rfl, rfl⟩

/-- **C4.** Parsing text `a` and then text `b` on the same model yields the
board list of parsing `b` alone on a fresh model: `parse_output` rebuilds
`self.boards` from scratch on every call. -/
theorem c4_reparse_discards (m : EmulatorResourceParser) (a b : List Char) :
    ((m.parse_output a).parse_output b).boards
      = (emptyModel.parse_output b).boards := by
  rcases hsplit : splitOnCharL '\n' (pyStrip b) with _ | ⟨hd, rest⟩ <;>
    simp [EmulatorResourceParser.parse_output, hsplit]

/-- The five-line example input of the spec. -/
def exampleReport : List Char :=
  ("Emulator: EMU1 Hardware: Box3000 Configmgr: CM7 System Status: OK\n"
    ++ "Cluster 0 has 1 boards CCD: X\n"
    ++ "Board 0 has 2 domains Board: UP\n"
    ++ "0.0 NONE -- -- -- -- DESIGNA 00:01:00 --\n"
    ++ "0.1 alice 1234 -- -- -- DESIGNB 01:02:03 KEY1").toList

/-- **C9.** The worked example: one board, two domains, domain `0.0` free,
domain `0.1` used by `alice`, utilization `50`. -/
theorem c9_example :
    (emptyModel.parse_output exampleReport).boards.length = 1
    ∧ (emptyModel.parse_output exampleReport).get_resource_summary.total_domains = 2
    ∧ ((emptyModel.parse_output exampleReport).get_free_domains none).map
        Domain.get_full_id = ["0.0"]
    ∧ ((emptyModel.parse_output exampleReport).get_used_domains none).map
        (fun d => (d.get_full_id, d.owner)) = [("0.1", "alice")]
    ∧ (emptyModel.parse_output exampleReport).get_resource_summary.utilization_percent
        = 50 := by
  refine ⟨by decide, by decide, by decide, by decide, ?_⟩
  have h1 : ((emptyModel.parse_output exampleReport).get_used_domains none).length = 1 := by
    decide
  have h2 : (((emptyModel.parse_output exampleReport).boards.map
      (fun b => b.domains.length)).sum) = 2 := by decide
  simp only [EmulatorResourceParser.get_resource_summary, h1, h2]
  norm_num

/-- **C2.** The flat summary's `utilization_percent` is exactly `0` when
`total_domains` is `0` and otherwise exactly `100 * used / total`
(unrounded; the source computes `used / total * 100`), and the JSON
projection carries the same value rounded to two decimal places. -/
theorem c2_utilization (m : EmulatorResourceParser) :
    m.get_resource_summary.utilization_percent
      = (if m.get_resource_summary.total_domains = 0 then 0
         else 100 * (m.get_resource_summary.used_domains : ℚ)
              / (m.get_resource_summary.total_domains : ℚ))
    ∧ m.get_json_summary.resource_summary.utilization_percent
      = pyRound2 m.get_resource_summary.utilization_percent := by
  constructor
  · simp only [EmulatorResourceParser.get_resource_summary]
    rcases Nat.eq_zero_or_pos
        ((m.boards.map (fun b => b.domains.length)).sum) with h | h
    · simp [h]
    · rw [if_pos h, if_neg (Nat.pos_iff_ne_zero.mp h)]
      ring
  · rfl

/-- **C3.** For every model state and cluster filter, the union of
`get_free_domains` and `get_used_domains` (as sets) is the set of all
domains of the boards passing the filter, the two are disjoint, and a
domain is in the free list exactly when its owner is `"NONE"`. -/
theorem c3_partition (m : EmulatorResourceParser) (c : Option Int) :
    (∀ d : Domain,
      (d ∈ m.get_free_domains c ∨ d ∈ m.get_used_domains c)
        ↔ d ∈ (m.boards.filter (clusterOk c)).flatMap Board.domains)
    ∧ (∀ d : Domain, ¬ (d ∈ m.get_free_domains c ∧ d ∈ m.get_used_domains c))
    ∧ (∀ d : Domain,
      d ∈ m.get_free_domains c
        ↔ d ∈ (m.boards.filter (clusterOk c)).flatMap Board.domains
            ∧ d.owner = "NONE") := by
  refine ⟨fun d => ?_, fun d => ?_, fun d => ?_⟩ <;>
    simp only [EmulatorResourceParser.get_free_domains,
      EmulatorResourceParser.get_used_domains, Board.get_free_domains,
      Board.get_used_domains, Domain.is_free, List.mem_flatMap,
      List.mem_filter, beq_iff_eq, Bool.not_eq_true', beq_eq_false_iff_ne,
      ne_eq]
  · constructor
    · rintro (⟨b, hb, hd, _⟩ | ⟨b, hb, hd, _⟩) <;> exact ⟨b, hb, hd⟩
    · rintro ⟨b, hb, hd⟩
      by_cases h : d.owner = "NONE"
      · exact Or.inl ⟨b, hb, hd, h⟩
      · exact Or.inr ⟨b, hb, hd, h⟩
  · rintro ⟨⟨b, _, _, h1⟩, ⟨b', _, _, h2⟩⟩
    exact h2 h1
  · constructor
    · rintro ⟨b, hb, hd, h⟩
      exact ⟨⟨b, hb, hd⟩, h⟩
    · rintro ⟨⟨b, hb, hd⟩, h⟩
      exact ⟨b, hb, hd, h⟩

/-- `startsWithL` is a test for an initial segment. -/
theorem startsWithL_iff_take {p l : List Char} :
    startsWithL p l = true ↔ l.take p.length = p := by
  induction p generalizing l with
  | nil => simp [startsWithL]
  | cons c ps ih =>
    cases l with
    | nil => simp [startsWithL]
    | cons x xs =>
      simp only [startsWithL, List.length_cons, List.take_succ_cons,
        Bool.and_eq_true, beq_iff_eq, List.cons.injEq, ih]
      constructor
      · rintro ⟨rfl, h⟩; exact ⟨rfl, h⟩
      · rintro ⟨rfl, h⟩; exact ⟨rfl, h⟩

/-- A line classified as a possible domain record (starts with `Domain`,
or has a `.` among its first five of at least five characters) is nonempty
and starts with neither `Cluster` nor `Board`: the `elif` chain of the
source necessarily reaches the domain branch on it. -/
theorem candidate_facts (line : List Char)
    (hcls : startsWithL ['D', 'o', 'm', 'a', 'i', 'n'] line = true
      ∨ (5 ≤ line.length ∧ ((line.take 5).contains '.') = true)) :
    line ≠ []
    ∧ startsWithL ['C', 'l', 'u', 's', 't', 'e', 'r'] line = false
    ∧ startsWithL ['B', 'o', 'a', 'r', 'd'] line = false := by
  rcases hcls with h | ⟨h5, hdot⟩
  · have ht : line.take 6 = ['D', 'o', 'm', 'a', 'i', 'n'] :=
      startsWithL_iff_take.mp h
    refine ⟨?_, ?_, ?_⟩
    · intro hnil; rw [hnil] at ht; exact absurd ht (by decide)
    · cases hc : startsWithL ['C', 'l', 'u', 's', 't', 'e', 'r'] line
      · rfl
      · have htc : line.take 7 = ['C', 'l', 'u', 's', 't', 'e', 'r'] :=
          startsWithL_iff_take.mp hc
        have h6 : line.take 6 = (line.take 7).take 6 := by
          rw [List.take_take]; norm_num
        rw [ht, htc] at h6
        exact absurd h6 (by decide)
    · cases hb : startsWithL ['B', 'o', 'a', 'r', 'd'] line
      · rfl
      · have htb : line.take 5 = ['B', 'o', 'a', 'r', 'd'] :=
          startsWithL_iff_take.mp hb
        have h5' : line.take 5 = (line.take 6).take 5 := by
          rw [List.take_take]; norm_num
        rw [ht, htb] at h5'
        exact absurd h5' (by decide)
  · refine ⟨?_, ?_, ?_⟩
    · intro hnil; rw [hnil] at h5; simp at h5
    · cases hc : startsWithL ['C', 'l', 'u', 's', 't', 'e', 'r'] line
      · rfl
      · have htc : line.take 7 = ['C', 'l', 'u', 's', 't', 'e', 'r'] :=
          startsWithL_iff_take.mp hc
        have h5' : line.take 5 = (line.take 7).take 5 := by
          rw [List.take_take]; norm_num
        rw [htc] at h5'
        rw [h5'] at hdot
        exact absurd hdot (by decide)
    · cases hb : startsWithL ['B', 'o', 'a', 'r', 'd'] line
      · rfl
      · have htb : line.take 5 = ['B', 'o', 'a', 'r', 'd'] :=
          startsWithL_iff_take.mp hb
        rw [htb] at hdot
        exact absurd hdot (by decide)

/-- Total number of domains across a board list. -/
def domainCount (bs : List Board) : Nat :=
  (bs.map (fun b => b.domains.length)).sum

/-- Appending a domain to the current (last) board adds exactly one domain
to the model. -/
theorem domainCount_modifyLast (bs : List Board) (d : Domain) (h : bs ≠ []) :
    domainCount (modifyLast (fun b => b.add_domain d) bs) = domainCount bs + 1 := by
  induction bs with
  | nil => exact absurd rfl h
  | cons b bs ih =>
    cases bs with
    | nil => simp [modifyLast, domainCount, Board.add_domain]
    | cons b' bs' =>
      have := ih (by simp)
      simp only [modifyLast, domainCount, List.map_cons, List.sum_cons] at this ⊢
      omega

/-- On a line classified as a possible domain record, `processLine` reduces
to the domain branch of the `elif` chain. -/
theorem processLine_domain_branch (st : ParseState) (raw : List Char)
    (hcls : startsWithL ['D', 'o', 'm', 'a', 'i', 'n'] (pyStrip raw) = true
      ∨ (5 ≤ (pyStrip raw).length
          ∧ (((pyStrip raw).take 5).contains '.') = true)) :
    processLine st raw =
      (if (containsSub ['O', 'w', 'n', 'e', 'r'] (pyStrip raw)
            && containsSub ['P', 'I', 'D'] (pyStrip raw)) = true then st
       else if (decide (8 ≤ (pySplit (pyStrip raw)).length)
            && !st.boards.isEmpty) = true then
         match parseDomainFields (pySplit (pyStrip raw)) with
         | some d =>
           { st with boards := modifyLast (fun b => b.add_domain d) st.boards }
         | none => st
       else st) := by
  obtain ⟨hne, hnc, hnb⟩ := candidate_facts (pyStrip raw) hcls
  have hcand : (startsWithL ['D', 'o', 'm', 'a', 'i', 'n'] (pyStrip raw)
      || (decide (5 ≤ (pyStrip raw).length)
          && ((pyStrip raw).take 5).contains '.')) = true := by
    rcases hcls with h | ⟨h5, hdot⟩
    · simp [h]
    · simp only [Bool.or_eq_true, Bool.and_eq_true, decide_eq_true_eq]
      exact Or.inr ⟨h5, hdot⟩
  simp only [processLine]
  rw [if_neg hne, if_neg (by simp [hnc]), if_neg (by simp [hnb]), if_pos hcand]

/-- **C5.** On a line classified as a possible domain record, a domain is
added (the model's domain count grows by one) when the line does not
contain both `Owner` and `PID`, splits into at least 8 fields, a current
board exists, and the first field parses as `<int>.<int>`; in every other
case the line is skipped with no state change. -/
theorem c5_domain_acceptance (st : ParseState) (raw : List Char)
    (hcls : startsWithL ['D', 'o', 'm', 'a', 'i', 'n'] (pyStrip raw) = true
      ∨ (5 ≤ (pyStrip raw).length
          ∧ (((pyStrip raw).take 5).contains '.') = true)) :
    (((containsSub ['O', 'w', 'n', 'e', 'r'] (pyStrip raw)
          && containsSub ['P', 'I', 'D'] (pyStrip raw)) = false
        ∧ 8 ≤ (pySplit (pyStrip raw)).length
        ∧ st.boards ≠ []
        ∧ (parseDomainId ((pySplit (pyStrip raw)).getD 0 [])).isSome = true)
      → domainCount (processLine st raw).boards = domainCount st.boards + 1)
    ∧ (¬ (((containsSub ['O', 'w', 'n', 'e', 'r'] (pyStrip raw)
          && containsSub ['P', 'I', 'D'] (pyStrip raw)) = false
        ∧ 8 ≤ (pySplit (pyStrip raw)).length
        ∧ st.boards ≠ []
        ∧ (parseDomainId ((pySplit (pyStrip raw)).getD 0 [])).isSome = true))
      → processLine st raw = st) := by
  rw [processLine_domain_branch st raw hcls]
  constructor
  · rintro ⟨hOP, h8, hbne, hid⟩
    rw [if_neg (by simp [hOP]), if_pos (by simp [h8, hbne])]
    obtain ⟨⟨bn, dn⟩, hsome⟩ := Option.isSome_iff_exists.mp hid
    simp only [parseDomainFields, hsome]
    exact domainCount_modifyLast st.boards _ hbne
  · intro hnot
    by_cases hOP : (containsSub ['O', 'w', 'n', 'e', 'r'] (pyStrip raw)
        && containsSub ['P', 'I', 'D'] (pyStrip raw)) = true
    · rw [if_pos hOP]
    · have hOP' : (containsSub ['O', 'w', 'n', 'e', 'r'] (pyStrip raw)
          && containsSub ['P', 'I', 'D'] (pyStrip raw)) = false :=
        Bool.not_eq_true _ ▸ Bool.of_not_eq_true hOP
      rw [if_neg hOP]
      by_cases h8 : 8 ≤ (pySplit (pyStrip raw)).length
      · by_cases hbe : st.boards = []
        · rw [if_neg (by simp [hbe])]
        · have hD : ¬ (parseDomainId ((pySplit (pyStrip raw)).getD 0 [])).isSome = true :=
            fun hid => hnot ⟨hOP', h8, hbe, hid⟩
          have hnone : parseDomainId ((pySplit (pyStrip raw)).getD 0 []) = none :=
            Option.not_isSome_iff_eq_none.mp hD
          rw [if_pos (by simp [h8, hbe])]
          simp only [parseDomainFields, hnone]
      · rw [if_neg (by simp [h8])]

/-- Witness for C5 at a concrete accepted line. -/
theorem c5_domain_acceptance_witness :
    domainCount (processLine
        { current_cluster := some 0,
          boards := [{ board_id := 0, cluster_id := some 0,
                       status := "UP", domains := [] }] }
        "0.0 NONE -- -- -- -- DESIGNA 00:01:00 --".toList).boards
      = domainCount
          [({ board_id := 0, cluster_id := some 0,
              status := "UP", domains := [] } : Board)] + 1 :=
  (c5_domain_acceptance
      { current_cluster := some 0,
        boards := [{ board_id := 0, cluster_id := some 0,
                     status := "UP", domains := [] }] }
      "0.0 NONE -- -- -- -- DESIGNA 00:01:00 --".toList
      (by decide)).1 (by refine ⟨by decide, by decide, by decide, by decide⟩)

/-- `List.getD` is unchanged by `set` at a different index. -/
theorem getD_set_ne {l : List (List Char)} {i j : Nat} (h : i ≠ j)
    (x : List Char) : (l.set i x).getD j [] = l.getD j [] := by
  simp [List.getD, List.getElem?_set_ne h]

/-- **C6.** For an accepted domain line, the constructed domain takes its
attributes from the whitespace-split fields exactly as: board/domain
numbers from field 0, owner = field 1, pid = field 2, pod/target = field 5
(mapped to `""` when literally `"--"`), design = field 6, elapsed time =
field 7, reserved key = field 8 when at least 9 fields exist and the
sentinel `"--"` otherwise; and fields 3 and 4 never influence the
constructed domain. -/
theorem c6_field_mapping (st : ParseState) (raw : List Char) (bn dn : Int)
    (hcls : startsWithL ['D', 'o', 'm', 'a', 'i', 'n'] (pyStrip raw) = true
      ∨ (5 ≤ (pyStrip raw).length
          ∧ (((pyStrip raw).take 5).contains '.') = true))
    (hOP : (containsSub ['O', 'w', 'n', 'e', 'r'] (pyStrip raw)
        && containsSub ['P', 'I', 'D'] (pyStrip raw)) = false)
    (h8 : 8 ≤ (pySplit (pyStrip raw)).length)
    (hbne : st.boards ≠ [])
    (hid : parseDomainId ((pySplit (pyStrip raw)).getD 0 []) = some (bn, dn)) :
    processLine st raw =
      { st with boards := modifyLast (fun b => b.add_domain
          { board := bn
            domain := dn
            owner := String.mk ((pySplit (pyStrip raw)).getD 1 [])
            pid := String.mk ((pySplit (pyStrip raw)).getD 2 [])
            t_pod := if (pySplit (pyStrip raw)).getD 5 [] = ['-', '-'] then ""
                     else String.mk ((pySplit (pyStrip raw)).getD 5 [])
            design := String.mk ((pySplit (pyStrip raw)).getD 6 [])
            elapsed_time := String.mk ((pySplit (pyStrip raw)).getD 7 [])
            reserved_key := if 8 < (pySplit (pyStrip raw)).length then
                              String.mk ((pySplit (pyStrip raw)).getD 8 [])
                            else "--" }) st.boards }
    ∧ ∀ x y : List Char,
        parseDomainFields (((pySplit (pyStrip raw)).set 3 x).set 4 y)
          = parseDomainFields (pySplit (pyStrip raw)) := by
  constructor
  · rw [processLine_domain_branch st raw hcls,
      if_neg (by simp [hOP]), if_pos (by simp [h8, hbne])]
    simp only [parseDomainFields, hid]
    have h7 : 7 < (pySplit (pyStrip raw)).length := by omega
    simp [h7]
  · intro x y
    simp only [parseDomainFields, List.length_set,
      getD_set_ne (show (4 : Nat) ≠ 0 by omega),
      getD_set_ne (show (3 : Nat) ≠ 0 by omega),
      getD_set_ne (show (4 : Nat) ≠ 1 by omega),
      getD_set_ne (show (3 : Nat) ≠ 1 by omega),
      getD_set_ne (show (4 : Nat) ≠ 2 by omega),
      getD_set_ne (show (3 : Nat) ≠ 2 by omega),
      getD_set_ne (show (4 : Nat) ≠ 5 by omega),
      getD_set_ne (show (3 : Nat) ≠ 5 by omega),
      getD_set_ne (show (4 : Nat) ≠ 6 by omega),
      getD_set_ne (show (3 : Nat) ≠ 6 by omega),
      getD_set_ne (show (4 : Nat) ≠ 7 by omega),
      getD_set_ne (show (3 : Nat) ≠ 7 by omega),
      getD_set_ne (show (4 : Nat) ≠ 8 by omega),
      getD_set_ne (show (3 : Nat) ≠ 8 by omega)]

/-- Witness for C6 at a concrete accepted line. -/
theorem c6_field_mapping_witness :
    processLine
        { current_cluster := some 0,
          boards := [{ board_id := 0, cluster_id := some 0,
                       status := "UP", domains := [] }] }
        "0.1 alice 1234 -- -- -- DESIGNB 01:02:03 KEY1".toList
      = { current_cluster := some 0,
          boards := modifyLast (fun b => b.add_domain
            { board := 0
              domain := 1
              owner := String.mk ((pySplit (pyStrip
                  "0.1 alice 1234 -- -- -- DESIGNB 01:02:03 KEY1".toList)).getD 1 [])
              pid := String.mk ((pySplit (pyStrip
                  "0.1 alice 1234 -- -- -- DESIGNB 01:02:03 KEY1".toList)).getD 2 [])
              t_pod := if (pySplit (pyStrip
                    "0.1 alice 1234 -- -- -- DESIGNB 01:02:03 KEY1".toList)).getD 5 []
                    = ['-', '-'] then ""
                  else String.mk ((pySplit (pyStrip
                    "0.1 alice 1234 -- -- -- DESIGNB 01:02:03 KEY1".toList)).getD 5 [])
              design := String.mk ((pySplit (pyStrip
                  "0.1 alice 1234 -- -- -- DESIGNB 01:02:03 KEY1".toList)).getD 6 [])
              elapsed_time := String.mk ((pySplit (pyStrip
                  "0.1 alice 1234 -- -- -- DESIGNB 01:02:03 KEY1".toList)).getD 7 [])
              reserved_key := if 8 < (pySplit (pyStrip
                    "0.1 alice 1234 -- -- -- DESIGNB 01:02:03 KEY1".toList)).length then
                  String.mk ((pySplit (pyStrip
                    "0.1 alice 1234 -- -- -- DESIGNB 01:02:03 KEY1".toList)).getD 8 [])
                else "--" })
            [{ board_id := 0, cluster_id := some 0, status := "UP", domains := [] }] } :=
  (c6_field_mapping
      { current_cluster := some 0,
        boards := [{ board_id := 0, cluster_id := some 0,
                     status := "UP", domains := [] }] }
      "0.1 alice 1234 -- -- -- DESIGNB 01:02:03 KEY1".toList 0 1
      (by decide) (by decide) (by decide) (by decide) (by decide)).1

/-- Stripping ignores an all-whitespace prefix. -/
theorem pyStrip_ws_append (ws t : List Char) (h : ∀ c ∈ ws, isPySpace c = true) :
    pyStrip (ws ++ t) = pyStrip t := by
  unfold pyStrip lstripL
  rw [List.dropWhile_append_of_pos h]

/-- `rstripL` over an append. -/
theorem rstripL_append (a b : List Char) :
    rstripL (a ++ b) = if rstripL b = [] then rstripL a else a ++ rstripL b := by
  by_cases h : rstripL b = []
  · rw [if_pos h]
    have h2 : List.dropWhile isPySpace b.reverse = [] := by
      have := congrArg List.reverse h
      simpa [rstripL] using this
    have hb : ∀ c ∈ b.reverse, isPySpace c = true :=
      List.dropWhile_eq_nil_iff.mp h2
    unfold rstripL
    rw [List.reverse_append, List.dropWhile_append_of_pos hb]
  · rw [if_neg h]
    have h2 : ¬ List.dropWhile isPySpace b.reverse = [] := by
      intro hx
      exact h (by simp [rstripL, hx])
    unfold rstripL
    rw [List.reverse_append, List.dropWhile_append,
      if_neg (by simpa [List.isEmpty_iff] using h2)]
    rw [List.reverse_append, List.reverse_reverse]

/-- Stripping ignores an all-whitespace suffix. -/
theorem pyStrip_append_ws (t ws : List Char) (h : ∀ c ∈ ws, isPySpace c = true) :
    pyStrip (t ++ ws) = pyStrip t := by
  unfold pyStrip
  by_cases ht : lstripL t = []
  · have htall : ∀ c ∈ t, isPySpace c = true := by
      simpa [lstripL, List.dropWhile_eq_nil_iff] using ht
    have hall : lstripL (t ++ ws) = [] := by
      simp only [lstripL, List.dropWhile_eq_nil_iff]
      intro x hx
      rcases List.mem_append.mp hx with hx | hx
      · exact htall x hx
      · exact h x hx
    rw [hall, ht]
  · have hsplit : lstripL (t ++ ws) = lstripL t ++ ws := by
      simp only [lstripL, List.dropWhile_append]
      rw [if_neg]
      simpa [List.isEmpty_iff, lstripL] using ht
    have hws : rstripL ws = [] := by
      unfold rstripL
      rw [List.dropWhile_eq_nil_iff.mpr
        (fun x hx => h x (List.mem_reverse.mp hx))]
      rfl
    rw [hsplit, rstripL_append, if_pos hws]

/-- `split(sep)` of a separator-free list. -/
theorem splitOnCharL_no_sep (sep : Char) (l : List Char)
    (h : ∀ c ∈ l, (c == sep) = false) : splitOnCharL sep l = [l] := by
  induction l with
  | nil => rfl
  | cons c cs ih =>
    have hc : (c == sep) = false := h c (by simp)
    have := ih (fun x hx => h x (by simp [hx]))
    simp only [splitOnCharL, hc, this]
    rfl

/-- `split(sep)` peels off a separator-free first chunk. -/
theorem splitOnCharL_first (sep : Char) (l z : List Char)
    (h : ∀ c ∈ l, (c == sep) = false) :
    splitOnCharL sep (l ++ sep :: z) = l :: splitOnCharL sep z := by
  induction l with
  | nil => simp [splitOnCharL]
  | cons c cs ih =>
    have hc : (c == sep) = false := h c (by simp)
    have hih := ih (fun x hx => h x (by simp [hx]))
    simp only [List.cons_append, splitOnCharL, hc, Bool.false_eq_true, if_false,
      List.append_eq, hih]

/-- A nonempty left-stripped list starts with a non-whitespace character. -/
theorem lstripL_head (L : List Char) (hne : L ≠ []) (hl : lstripL L = L) :
    ∃ c cs, L = c :: cs ∧ isPySpace c = false := by
  cases L with
  | nil => exact absurd rfl hne
  | cons c cs =>
    refine ⟨c, cs, rfl, ?_⟩
    by_contra hc
    have hc' : isPySpace c = true := by simpa using hc
    have h2 := hl
    simp only [lstripL, List.dropWhile_cons_of_pos hc'] at h2
    have hlen := congrArg List.length h2
    have hle := (List.dropWhile_sublist (l := cs) isPySpace).length_le
    simp only [List.length_cons] at hlen
    omega

/-- The strip of a stripped newline-free first line followed by a newline. -/
theorem pyStrip_line_append (L R : List Char)
    (hl : lstripL L = L) (hr : rstripL L = L) (hne : L ≠ []) :
    pyStrip (L ++ '\n' :: R)
      = if rstripL ('\n' :: R) = [] then L else L ++ rstripL ('\n' :: R) := by
  obtain ⟨c, cs, hL, hc⟩ := lstripL_head L hne hl
  have hcneg : ¬ isPySpace c = true := by simp [hc]
  have hlst : lstripL (L ++ '\n' :: R) = L ++ '\n' :: R := by
    unfold lstripL
    rw [hL, List.cons_append, List.dropWhile_cons_of_neg hcneg]
  unfold pyStrip
  rw [hlst, rstripL_append]
  by_cases h : rstripL ('\n' :: R) = []
  · rw [if_pos h, if_pos h, hr]
  · rw [if_neg h, if_neg h]

/-- The board list of a parse, through a decomposition of the stripped
input into a header line and remaining lines. -/
theorem parse_output_boards_split (m : EmulatorResourceParser) (X : List Char)
    (hd : List Char) (tl : List (List Char))
    (h : splitOnCharL '\n' (pyStrip X) = hd :: tl) :
    (m.parse_output X).boards
      = (tl.foldl processLine { current_cluster := none, boards := [] }).boards := by
  simp only [EmulatorResourceParser.parse_output, h]

/-- Characters surviving `pyStrip` come from the original list. -/
theorem mem_of_mem_pyStrip {x : Char} {l : List Char} (hx : x ∈ pyStrip l) :
    x ∈ l := by
  simp only [pyStrip, rstripL, lstripL, List.mem_reverse] at hx
  have hx2 := (List.dropWhile_sublist (l := (l.dropWhile isPySpace).reverse)
    isPySpace).subset hx
  rw [List.mem_reverse] at hx2
  exact (List.dropWhile_sublist (l := l) isPySpace).subset hx2

/-- **C10.** `parse_output` strips surrounding whitespace from the whole
text and unconditionally consumes the first remaining line as the header:
surrounding whitespace (including leading blank lines) never changes the
result; a text without newline produces no boards whatever the shape of
its single line; and the entire content of the (stripped, newline-free,
nonempty) first line is irrelevant to the parsed boards. -/
theorem c10_strip_and_header (m : EmulatorResourceParser) :
    (∀ ws1 text ws2 : List Char,
      (∀ c ∈ ws1, isPySpace c = true) → (∀ c ∈ ws2, isPySpace c = true) →
      m.parse_output (ws1 ++ text ++ ws2) = m.parse_output text)
    ∧ (∀ L : List Char, L.contains '\n' = false →
      (m.parse_output L).boards = [])
    ∧ (∀ L L' R : List Char,
      lstripL L = L → rstripL L = L → L.contains '\n' = false → L ≠ [] →
      lstripL L' = L' → rstripL L' = L' → L'.contains '\n' = false → L' ≠ [] →
      (m.parse_output (L ++ '\n' :: R)).boards
        = (m.parse_output (L' ++ '\n' :: R)).boards) := by
  refine ⟨?_, ?_, ?_⟩
  · intro ws1 text ws2 h1 h2
    have hstrip : pyStrip (ws1 ++ text ++ ws2) = pyStrip text := by
      rw [List.append_assoc, pyStrip_ws_append _ _ h1, pyStrip_append_ws _ _ h2]
    simp only [EmulatorResourceParser.parse_output, hstrip]
  · intro L hnl
    have hmem : ∀ c ∈ pyStrip L, (c == '\n') = false := by
      intro c hcL
      have hnotin : ('\n' : Char) ∉ L := by simpa using hnl
      by_cases hce : c = '\n'
      · exact absurd (hce ▸ mem_of_mem_pyStrip hcL) hnotin
      · simp [hce]
    rw [parse_output_boards_split m L (pyStrip L) []
      (splitOnCharL_no_sep '\n' (pyStrip L) hmem)]
    rfl
  · intro L L' R hl hr hnl hne hl' hr' hnl' hne'
    have hmem : ∀ c ∈ L, (c == '\n') = false := by
      intro c hcL
      have hnotin : ('\n' : Char) ∉ L := by simpa using hnl
      by_cases hce : c = '\n'
      · exact absurd (hce ▸ hcL) hnotin
      · simp [hce]
    have hmem' : ∀ c ∈ L', (c == '\n') = false := by
      intro c hcL
      have hnotin : ('\n' : Char) ∉ L' := by simpa using hnl'
      by_cases hce : c = '\n'
      · exact absurd (hce ▸ hcL) hnotin
      · simp [hce]
    by_cases hR : rstripL ('\n' :: R) = []
    · have e1 : pyStrip (L ++ '\n' :: R) = L := by
        rw [pyStrip_line_append L R hl hr hne, if_pos hR]
      have e2 : pyStrip (L' ++ '\n' :: R) = L' := by
        rw [pyStrip_line_append L' R hl' hr' hne', if_pos hR]
      rw [parse_output_boards_split m _ L []
          (by rw [e1]; exact splitOnCharL_no_sep '\n' L hmem),
        parse_output_boards_split m _ L' []
          (by rw [e2]; exact splitOnCharL_no_sep '\n' L' hmem')]
    · have hRc : rstripL ('\n' :: R) = '\n' :: rstripL R := by
        have := rstripL_append ['\n'] R
        simp only [List.singleton_append] at this
        rw [this]
        by_cases hRR : rstripL R = []
        · exact absurd (by rw [this, if_pos hRR]; decide) hR
        · rw [if_neg hRR]
      have e1 : pyStrip (L ++ '\n' :: R) = L ++ '\n' :: rstripL R := by
        rw [pyStrip_line_append L R hl hr hne, if_neg hR, hRc]
      have e2 : pyStrip (L' ++ '\n' :: R) = L' ++ '\n' :: rstripL R := by
        rw [pyStrip_line_append L' R hl' hr' hne', if_neg hR, hRc]
      rw [parse_output_boards_split m _ L (splitOnCharL '\n' (rstripL R))
          (by rw [e1]; exact splitOnCharL_first '\n' L _ hmem),
        parse_output_boards_split m _ L' (splitOnCharL '\n' (rstripL R))
          (by rw [e2]; exact splitOnCharL_first '\n' L' _ hmem')]

/-- Witness for C10: a blank-line prefix is stripped, and a single
board-shaped line is consumed as the header, producing no boards. -/
theorem c10_strip_and_header_witness :
    emptyModel.parse_output ("\n \n".toList ++ "Emulator: E".toList ++ " ".toList)
      = emptyModel.parse_output "Emulator: E".toList
    ∧ (emptyModel.parse_output "Board 0 has 1 domains Board: UP".toList).boards
      = [] :=
  ⟨(c10_strip_and_header emptyModel).1 "\n \n".toList "Emulator: E".toList
      " ".toList (by decide) (by decide),
    (c10_strip_and_header emptyModel).2.1 "Board 0 has 1 domains Board: UP".toList
      (by decide)⟩

/-! ## Domain ownership across boards (for claim C8) -/

/-- The concatenation of the boards' domain lists, in board order. -/
def joinDoms (bs : List Board) : List Domain := bs.flatMap Board.domains

/-- The domain record accepted by the domain branch of `processLine` on a
line for a given loop state, if any: the same classification chain as
`processLine`, projected onto the constructed `Domain`. -/
def acceptedDomain (st : ParseState) (raw : List Char) : Option Domain :=
  let line := pyStrip raw
  if line = [] then none
  else if startsWithL ['C', 'l', 'u', 's', 't', 'e', 'r'] line then none
  else if startsWithL ['B', 'o', 'a', 'r', 'd'] line
      && containsSub ['h', 'a', 's'] line
      && containsSub ['d', 'o', 'm', 'a', 'i', 'n', 's'] line then none
  else if startsWithL ['D', 'o', 'm', 'a', 'i', 'n'] line
      || (decide (5 ≤ line.length) && (line.take 5).contains '.') then
    if containsSub ['O', 'w', 'n', 'e', 'r'] line
        && containsSub ['P', 'I', 'D'] line then none
    else
      let parts := pySplit line
      if decide (8 ≤ parts.length) && !st.boards.isEmpty then
        parseDomainFields parts
      else none
  else none

/-- Appending a domain to the current (last) board appends exactly that
domain to the model's domain sequence. -/
theorem joinDoms_modifyLast (bs : List Board) (d : Domain) (h : bs ≠ []) :
    joinDoms (modifyLast (fun b => b.add_domain d) bs) = joinDoms bs ++ [d] := by
  induction bs with
  | nil => exact absurd rfl h
  | cons b bs ih =>
    cases bs with
    | nil => simp [modifyLast, joinDoms, Board.add_domain]
    | cons b' bs' =>
      have hih := ih (by simp)
      simp only [modifyLast, joinDoms, List.flatMap_cons] at hih ⊢
      rw [hih]
      simp [List.append_assoc]

/-- Each line appends exactly the accepted domain (if any) to the model's
domain sequence: a constructed `Domain` lands in exactly one board's list,
and a skipped line leaves the sequence unchanged. -/
theorem joinDoms_processLine (st : ParseState) (raw : List Char) :
    joinDoms (processLine st raw).boards
      = joinDoms st.boards ++ (acceptedDomain st raw).toList := by
  simp only [processLine, acceptedDomain]
  split_ifs with h1 h2 h3 h4 h5 h6
  · simp
  · cases hcm : clusterMatch (pyStrip raw) <;> simp
  · cases hbm : boardMatch (pyStrip raw) with
    | none => simp
    | some p => simp [joinDoms]
  · simp
  · cases hdf : parseDomainFields (pySplit (pyStrip raw)) with
    | none => simp
    | some d =>
      have hne : st.boards ≠ [] := by
        simp only [Bool.and_eq_true] at h6
        simpa using h6.2
      simp [joinDoms_modifyLast st.boards d hne]
  · simp
  · simp

/-- The chronological sequence of all domain records accepted during one
`parse_output` call (the fold of `processLine`, additionally collecting
each accepted domain once, at the moment of its construction). -/
def acceptedSeq (out : List Char) : List Domain :=
  match splitOnCharL '\n' (pyStrip out) with
  | [] => []
  | _ :: rest =>
    (rest.foldl
      (fun p raw => (processLine p.1 raw, p.2 ++ (acceptedDomain p.1 raw).toList))
      ({ current_cluster := none, boards := [] }, [])).2

/-- The fold invariant behind `c8_domains_one_board`. -/
theorem foldl_joinDoms (lines : List (List Char)) (st : ParseState)
    (acc : List Domain) (h : joinDoms st.boards = acc) :
    joinDoms (lines.foldl processLine st).boards
      = (lines.foldl
          (fun p raw => (processLine p.1 raw, p.2 ++ (acceptedDomain p.1 raw).toList))
          (st, acc)).2 := by
  induction lines generalizing st acc with
  | nil => simpa using h
  | cons l ls ih =>
    simp only [List.foldl_cons]
    exact ih _ _ (by rw [joinDoms_processLine, h])

/-- **C8 (amended).** After any `parse_output` call the concatenation of
the boards' domain lists is exactly the chronological sequence of accepted
domain records: each accepted record contributes its `Domain` to exactly
one board's list (the current board at acceptance time), exactly once.
(The original claim's non-negativity of board/domain numbers fails, see
`c8_counterexample`: Python `int()` accepts signed fields.) -/
theorem c8_domains_one_board (m : EmulatorResourceParser) (out : List Char) :
    joinDoms (m.parse_output out).boards = acceptedSeq out := by
  unfold EmulatorResourceParser.parse_output acceptedSeq
  cases hsplit : splitOnCharL '\n' (pyStrip out) with
  | nil => simp [joinDoms]
  | cons hd rest =>
    simp only
    exact foldl_joinDoms rest _ [] rfl

/-- A report whose domain record carries a signed first field. -/
def signedReport : List Char :=
  ("H\nBoard 0 has 1 domains Board: UP\n-1.0 NONE x x x x DES 00:00:01").toList

/-- **C8 (counterexample).** Parsing `signedReport` yields a domain with
board number `-1`: domain numbers are not always non-negative. -/
theorem c8_counterexample :
    ∃ b ∈ (emptyModel.parse_output signedReport).boards,
      ∃ d ∈ b.domains, d.board < 0 := by
  decide

/-! ## Header search lemmas (for claim C7) -/

/-- The character class `[\w\s]` of the hardware capture. -/
def wordOrSpace (c : Char) : Bool := isWordCharPy c || isPySpace c

/-- A literal is a prefix of itself followed by anything. -/
theorem startsWithL_append_self (p t : List Char) :
    startsWithL p (p ++ t) = true := by
  induction p with
  | nil => rfl
  | cons c ps ih => simp [startsWithL, ih]

/-- `eatLit` at an exact occurrence. -/
theorem eatLit_append (p t : List Char) : eatLit p (p ++ t) = some t := by
  rw [eatLit, if_pos (startsWithL_append_self p t), List.drop_left]

/-- A search attempt fails where the literal is absent. -/
theorem reSearch_none {α : Type} (tryAt : List Char → Option α)
    (l : List Char) (h : ∀ t ∈ l.tails, tryAt t = none) :
    reSearch tryAt l = none := by
  induction l with
  | nil =>
    simpa [reSearch] using
      h [] ((List.mem_tails _ _).mpr (List.suffix_refl []))
  | cons c rest ih =>
    have h1 : tryAt (c :: rest) = none :=
      h (c :: rest) ((List.mem_tails _ _).mpr (List.suffix_refl _))
    have h2 : ∀ t ∈ rest.tails, tryAt t = none := by
      intro t ht
      rw [List.mem_tails] at ht
      exact h t ((List.mem_tails _ _).mpr (ht.trans (List.suffix_cons c rest)))
    simp [reSearch, h1, ih h2]

/-- The scan skips a prefix of positions on which every attempt fails. -/
theorem reSearch_append {α : Type} (tryAt : List Char → Option α)
    (a l : List Char)
    (h : ∀ t ∈ (a ++ l).tails, l.length < t.length → tryAt t = none) :
    reSearch tryAt (a ++ l) = reSearch tryAt l := by
  induction a with
  | nil => rfl
  | cons c a' ih =>
    have h1 : tryAt (c :: (a' ++ l)) = none := by
      apply h (c :: (a' ++ l)) ((List.mem_tails _ _).mpr (List.suffix_refl _))
      simp only [List.length_cons, List.length_append]
      omega
    have h2 : ∀ t ∈ (a' ++ l).tails, l.length < t.length → tryAt t = none := by
      intro t ht hlen
      rw [List.mem_tails] at ht
      exact h t
        ((List.mem_tails _ _).mpr (ht.trans (List.suffix_cons c (a' ++ l)))) hlen
    simpa [reSearch, h1] using ih h2

/-- If `pat` is nowhere in `l`, it heads no suffix of `l`. -/
theorem containsSub_false_tails (pat l : List Char)
    (h : containsSub pat l = false) :
    ∀ t ∈ l.tails, startsWithL pat t = false := by
  induction l with
  | nil =>
    intro t ht
    rw [List.mem_tails] at ht
    rw [List.suffix_nil.mp ht]
    simpa [containsSub] using h
  | cons c rest ih =>
    intro t ht
    rw [List.mem_tails] at ht
    simp only [containsSub, Bool.or_eq_false_iff] at h
    rcases List.suffix_cons_iff.mp ht with rfl | ht'
    · exact h.1
    · exact ih h.2 t ((List.mem_tails _ _).mpr ht')

/-- Index of the first `':'` (length of the colon-free initial run). -/
def firstColon (l : List Char) : Nat :=
  (l.takeWhile (fun c => !(c == ':'))).length

/-- `firstColon` through a colon-free segment. -/
theorem firstColon_append (ms z : List Char)
    (h : ∀ c ∈ ms, (c == ':') = false) :
    firstColon (ms ++ z) = ms.length + firstColon z := by
  induction ms with
  | nil => simp
  | cons c ms' ih =>
    have hc : (c == ':') = false := h c (by simp)
    have hih := ih (fun x hx => h x (by simp [hx]))
    simp only [List.cons_append, firstColon, List.takeWhile_cons, hc,
      Bool.not_false, if_true, List.length_cons]
    simp only [firstColon] at hih
    rw [hih]
    omega

/-- `firstColon` of text headed by the `Configmgr:` label. -/
theorem firstColon_cfgLit (r : List Char) : firstColon (cfgLit ++ r) = 9 := rfl

/-- A suffix matching the `Configmgr:` label has its first colon at
index 9. -/
theorem firstColon_of_startsWith (s : List Char)
    (h : startsWithL cfgLit s = true) : firstColon s = 9 := by
  have ht : s.take cfgLit.length = cfgLit := startsWithL_iff_take.mp h
  have hs : s = cfgLit ++ s.drop cfgLit.length := by
    conv_lhs => rw [← List.take_append_drop cfgLit.length s]
    rw [ht]
  rw [hs]
  exact firstColon_cfgLit _

/-- Characters of the `[\w\s]` class are not colons (and not `'C'` starts
a `Configmgr:` occurrence inside such a run, see below). -/
theorem wordOrSpace_ne_colon {c : Char} (h : wordOrSpace c = true) :
    (c == ':') = false := by
  by_cases hc : c = ':'
  · subst hc
    exact absurd h (by decide)
  · simp [hc]

/-- The `Configmgr:` label cannot begin strictly inside a nonempty
`[\w\s]` run that is followed by the label itself: its colon would land too
early. -/
theorem noEarlyCfg (ms z : List Char) (hms : ∀ c ∈ ms, wordOrSpace c = true)
    (hne : ms ≠ []) : startsWithL cfgLit (ms ++ (cfgLit ++ z)) = false := by
  cases hsw : startsWithL cfgLit (ms ++ (cfgLit ++ z))
  · rfl
  · exfalso
    have h9 := firstColon_of_startsWith _ hsw
    rw [firstColon_append ms (cfgLit ++ z)
      (fun c hc => wordOrSpace_ne_colon (hms c hc)), firstColon_cfgLit] at h9
    have : ms.length = 0 := by omega
    exact hne (List.length_eq_zero.mp this)

/-- The `Configmgr:` label never matches inside a pure `[\w\s]` text: it
contains a colon. -/
theorem noCfgInWordSpace (s : List Char) (hs : ∀ c ∈ s, wordOrSpace c = true) :
    startsWithL cfgLit s = false := by
  cases hsw : startsWithL cfgLit s
  · rfl
  · exfalso
    have ht : s.take cfgLit.length = cfgLit := startsWithL_iff_take.mp hsw
    have hcol : (':' : Char) ∈ s := by
      have h1 : (':' : Char) ∈ s.take cfgLit.length := by
        rw [ht]; decide
      exact List.take_subset _ _ h1
    exact absurd (hs ':' hcol) (by decide)

/-- Unfolding equation of `hwGrow` on a cons. -/
theorem hwGrow_cons (cap : List Char) (c : Char) (cs : List Char) :
    hwGrow cap (c :: cs)
      = if hwLookahead (c :: cs) = true then some cap
        else if (isWordCharPy c || isPySpace c) = true then hwGrow (cap ++ [c]) cs
        else none := rfl

/-- The lookahead fires at an exact `Configmgr:` occurrence. -/
theorem hwLookahead_cfg (z : List Char) : hwLookahead (cfgLit ++ z) = true := by
  simp [hwLookahead, startsWithL_append_self]

/-- The lazy capture grows through a `[\w\s]` run up to a following
`Configmgr:` label, and stops exactly there. -/
theorem hwGrow_to_cfg (core : List Char) (cap z : List Char)
    (hcore : ∀ c ∈ core, wordOrSpace c = true) :
    hwGrow cap (core ++ (cfgLit ++ z)) = some (cap ++ core) := by
  induction core generalizing cap with
  | nil =>
    rw [List.nil_append, List.append_nil]
    have h := hwLookahead_cfg z
    rcases hq : cfgLit ++ z with _ | ⟨c, cs⟩
    · simp [cfgLit] at hq
    · rw [hq] at h
      rw [hwGrow_cons, if_pos h]
  | cons c core' ih =>
    have hc : wordOrSpace c = true := hcore c (by simp)
    have hla : hwLookahead (c :: (core' ++ (cfgLit ++ z))) = false := by
      simp only [hwLookahead, List.isEmpty_cons, Bool.false_or]
      have := noEarlyCfg (c :: core') z hcore (by simp)
      simpa [List.cons_append] using this
    rw [List.cons_append, hwGrow_cons, if_neg (by simp [hla]),
      if_pos (by simpa [wordOrSpace] using hc),
      ih (cap ++ [c]) (fun x hx => hcore x (by simp [hx]))]
    simp

/-- The lazy capture grows through a trailing `[\w\s]` run to the end of
the line, where `$` fires. -/
theorem hwGrow_to_end (core : List Char) (cap : List Char)
    (hcore : ∀ c ∈ core, wordOrSpace c = true) :
    hwGrow cap core = some (cap ++ core) := by
  induction core generalizing cap with
  | nil => simp [hwGrow]
  | cons c core' ih =>
    have hc : wordOrSpace c = true := hcore c (by simp)
    have hla : hwLookahead (c :: core') = false := by
      simp only [hwLookahead, List.isEmpty_cons, Bool.false_or]
      exact noCfgInWordSpace _ hcore
    rw [hwGrow_cons, if_neg (by simp [hla]),
      if_pos (by simpa [wordOrSpace] using hc),
      ih (cap ++ [c]) (fun x hx => hcore x (by simp [hx]))]
    simp

/-- Growing into the tail of the `Configmgr:` label itself dies at its
colon: `[\w\s]+?` cannot cross `':'` and no lookahead position fires. -/
theorem hwGrow_cfg_tail (cap z : List Char) :
    hwGrow cap (['o', 'n', 'f', 'i', 'g', 'm', 'g', 'r', ':'] ++ z) = none := rfl

/-- Unfolding equation of `hwStar` on a cons. -/
theorem hwStar_cons (c : Char) (cs : List Char) :
    hwStar (c :: cs)
      = if isPySpace c = true then
          (match hwStar cs with
           | some r => some r
           | none => hwGrow [c] cs)
        else if isWordCharPy c = true then hwGrow [c] cs
        else none := rfl

/-- `\s*([\w\s]+?)` on a nonempty `[\w\s]` text followed by a
`Configmgr:` label or the end of the line: the match succeeds and the
capture strips to the stripped text. -/
theorem hwStar_wordspace (m tail : List Char)
    (hm : ∀ c ∈ m, wordOrSpace c = true) (hne : m ≠ [])
    (htail : tail = [] ∨ ∃ z, tail = cfgLit ++ z) :
    ∃ cap, hwStar (m ++ tail) = some cap ∧ pyStrip cap = pyStrip m := by
  induction m with
  | nil => exact absurd rfl hne
  | cons c m' ih =>
    by_cases hc : isPySpace c = true
    · cases hm' : m' with
      | nil =>
        subst hm'
        have hstep : hwStar ((c :: []) ++ tail) = hwGrow [c] tail := by
          rw [List.cons_append, List.nil_append, hwStar_cons, if_pos hc]
          rcases htail with rfl | ⟨z, rfl⟩
          · rfl
          · have htail_none : hwStar (cfgLit ++ z) = none := by
              rw [show cfgLit ++ z
                  = 'C' :: (['o', 'n', 'f', 'i', 'g', 'm', 'g', 'r', ':'] ++ z)
                  from rfl]
              rw [hwStar_cons, if_neg (by decide), if_pos (by decide),
                hwGrow_cfg_tail]
            rw [htail_none]
        have hgrow : hwGrow [c] tail = some [c] := by
          rcases htail with rfl | ⟨z, rfl⟩
          · rfl
          · have h := hwLookahead_cfg z
            rcases hq : cfgLit ++ z with _ | ⟨x, xs⟩
            · simp [cfgLit] at hq
            · rw [hq] at h
              rw [hwGrow_cons, if_pos h]
        refine ⟨[c], by rw [hstep, hgrow], ?_⟩
        simp [pyStrip, lstripL, rstripL, hc]
      | cons c2 m'' =>
        rw [← hm']
        have hm'ne : m' ≠ [] := by rw [hm']; simp
        obtain ⟨cap, h1, h2⟩ :=
          ih (fun x hx => hm x (by simp [hx])) hm'ne
        refine ⟨cap, ?_, ?_⟩
        · rw [List.cons_append, hwStar_cons, if_pos hc, h1]
        · rw [h2]
          have : pyStrip (c :: m') = pyStrip m' := by
            have := pyStrip_ws_append [c] m'
              (by intro x hx; simp at hx; rw [hx]; exact hc)
            simpa using this
          rw [this]
    · have hw : isWordCharPy c = true := by
        have := hm c (by simp)
        simp only [wordOrSpace, Bool.or_eq_true] at this
        rcases this with h | h
        · exact h
        · exact absurd h hc
      have hm'ws : ∀ x ∈ m', wordOrSpace x = true :=
        fun x hx => hm x (by simp [hx])
      have hstep : hwStar ((c :: m') ++ tail) = hwGrow [c] (m' ++ tail) := by
        rw [List.cons_append, hwStar_cons, if_neg hc, if_pos hw]
      rcases htail with rfl | ⟨z, rfl⟩
      · refine ⟨c :: m', ?_, rfl⟩
        rw [hstep, List.append_nil, hwGrow_to_end m' [c] hm'ws]
        rfl
      · refine ⟨c :: m', ?_, rfl⟩
        rw [hstep, hwGrow_to_cfg m' [c] z hm'ws]
        rfl

/-- Attempt failures when the respective literal is absent. -/
theorem tryTokenAfter_none (lit t : List Char)
    (h : startsWithL lit t = false) : tryTokenAfter lit t = none := by
  simp [tryTokenAfter, eatLit, h]

/-- As `tryTokenAfter_none`, for the `\w+` capture. -/
theorem tryWordAfter_none (lit t : List Char)
    (h : startsWithL lit t = false) : tryWordAfter lit t = none := by
  simp [tryWordAfter, eatLit, h]

/-- As `tryTokenAfter_none`, for the hardware pattern. -/
theorem tryHardware_none (t : List Char)
    (h : startsWithL hwLit t = false) : tryHardware t = none := by
  simp [tryHardware, eatLit, h]

/-- A successful hardware attempt at an exact occurrence. -/
theorem tryHardware_pos (m tail : List Char)
    (hm : ∀ c ∈ m, wordOrSpace c = true) (hne : m ≠ [])
    (htail : tail = [] ∨ ∃ z, tail = cfgLit ++ z) :
    ∃ cap, tryHardware (hwLit ++ (m ++ tail)) = some cap
      ∧ pyStrip cap = pyStrip m := by
  obtain ⟨cap, h1, h2⟩ := hwStar_wordspace m tail hm hne htail
  exact ⟨cap, by simp [tryHardware, eatLit_append, h1], h2⟩

/-- The hardware search on a line whose first `Hardware:` occurrence is
followed by a nonempty `[\w\s]` stretch reaching `Configmgr:` or the end
of the line. -/
theorem reSearch_hardware (a m tail : List Char)
    (hocc : ∀ t ∈ (a ++ (hwLit ++ (m ++ tail))).tails,
      (hwLit ++ (m ++ tail)).length < t.length → startsWithL hwLit t = false)
    (hm : ∀ c ∈ m, wordOrSpace c = true) (hne : m ≠ [])
    (htail : tail = [] ∨ ∃ z, tail = cfgLit ++ z) :
    ∃ cap, reSearch tryHardware (a ++ (hwLit ++ (m ++ tail))) = some cap
      ∧ pyStrip cap = pyStrip m := by
  obtain ⟨cap, h1, h2⟩ := tryHardware_pos m tail hm hne htail
  refine ⟨cap, ?_, h2⟩
  rw [reSearch_append tryHardware a (hwLit ++ (m ++ tail))
    (fun t ht hlen => tryHardware_none t (hocc t ht hlen))]
  rcases hq : hwLit ++ (m ++ tail) with _ | ⟨c, cs⟩
  · simp [hwLit] at hq
  · rw [hq] at h1
    simp [reSearch, h1]

/-- **C7 (amended).** Every header field whose label is absent is left
unset (and the header parse is total); and when the first `Hardware:`
occurrence is followed by a nonempty stretch of word characters and
whitespace reaching the next `Configmgr:` label or the end of the line,
the hardware descriptor is that stretch trimmed of surrounding
whitespace.  (For free text containing any other character — e.g.
`Hardware: Box-3000` — the capture fails and the field stays unset, see
`c7_counterexample`; the original claim promised the free text itself.) -/
theorem c7_header_fields :
    (∀ h : List Char,
      (containsSub emuLit h = false → (parseHeaderFields h).emulator_name = none)
      ∧ (containsSub hwLit h = false → (parseHeaderFields h).hardware = none)
      ∧ (containsSub cfgLit h = false → (parseHeaderFields h).configmgr = none)
      ∧ (containsSub statusLit h = false
          → (parseHeaderFields h).system_status = none))
    ∧ (∀ a m r : List Char,
      (∀ t ∈ (a ++ (hwLit ++ (m ++ (cfgLit ++ r)))).tails,
        (hwLit ++ (m ++ (cfgLit ++ r))).length < t.length
          → startsWithL hwLit t = false) →
      (∀ c ∈ m, wordOrSpace c = true) → m ≠ [] →
      (parseHeaderFields (a ++ (hwLit ++ (m ++ (cfgLit ++ r))))).hardware
        = some (String.mk (pyStrip m)))
    ∧ (∀ a m : List Char,
      (∀ t ∈ (a ++ (hwLit ++ m)).tails,
        (hwLit ++ m).length < t.length → startsWithL hwLit t = false) →
      (∀ c ∈ m, wordOrSpace c = true) → m ≠ [] →
      (parseHeaderFields (a ++ (hwLit ++ m))).hardware
        = some (String.mk (pyStrip m))) := by
  refine ⟨?_, ?_, ?_⟩
  · intro h
    refine ⟨?_, ?_, ?_, ?_⟩
    · intro hc
      simp only [parseHeaderFields]
      rw [reSearch_none _ _
        (fun t ht => tryTokenAfter_none emuLit t (containsSub_false_tails _ _ hc t ht))]
      rfl
    · intro hc
      simp only [parseHeaderFields]
      rw [reSearch_none _ _
        (fun t ht => tryHardware_none t (containsSub_false_tails _ _ hc t ht))]
      rfl
    · intro hc
      simp only [parseHeaderFields]
      rw [reSearch_none _ _
        (fun t ht => tryTokenAfter_none cfgLit t (containsSub_false_tails _ _ hc t ht))]
      rfl
    · intro hc
      simp only [parseHeaderFields]
      rw [reSearch_none _ _
        (fun t ht => tryWordAfter_none statusLit t (containsSub_false_tails _ _ hc t ht))]
      rfl
  · intro a m r hocc hm hne
    obtain ⟨cap, h1, h2⟩ :=
      reSearch_hardware a m (cfgLit ++ r) hocc hm hne (Or.inr ⟨r, rfl⟩)
    simp only [parseHeaderFields]
    rw [h1]
    simp [h2]
  · intro a m hocc hm hne
    have hocc' : ∀ t ∈ (a ++ (hwLit ++ (m ++ []))).tails,
        (hwLit ++ (m ++ [])).length < t.length → startsWithL hwLit t = false := by
      simpa using hocc
    obtain ⟨cap, h1, h2⟩ := reSearch_hardware a m [] hocc' hm hne (Or.inl rfl)
    simp only [parseHeaderFields]
    have h1' : reSearch tryHardware (a ++ (hwLit ++ m)) = some cap := by
      simpa using h1
    rw [h1']
    simp [h2]

/-- **C7 (counterexample).** On the header `Hardware: Box-3000` the label
is present and the free text up to the end of the line, trimmed, is
`Box-3000`; but the parser leaves the field unset, because the capture
class `[\w\s]` of the source's regex cannot match `'-'`. -/
theorem c7_counterexample :
    (parseHeaderFields "Hardware: Box-3000".toList).hardware = none
    ∧ pyStrip " Box-3000".toList = "Box-3000".toList := by
  exact ⟨by decide, by decide⟩

/-- Witness for C7 at a concrete header with an embedded-space hardware
value. -/
theorem c7_header_fields_witness :
    (parseHeaderFields ("Emulator: E ".toList
        ++ (hwLit ++ (" Big Box ".toList ++ (cfgLit ++ " CM7".toList))))).hardware
      = some (String.mk (pyStrip " Big Box ".toList)) :=
  (c7_header_fields).2.1 "Emulator: E ".toList " Big Box ".toList " CM7".toList
    (by decide) (by decide) (by decide)

/-- A two-domain model used to instantiate the partition theorem. -/
def partitionModel : EmulatorResourceParser :=
  { emptyModel with
    boards := [{ board_id := 0, cluster_id := some 0, status := "UP",
                 domains := [
                   { board := 0, domain := 0, owner := "NONE", pid := "--",
                     t_pod := "", design := "D", elapsed_time := "--",
                     reserved_key := "--" },
                   { board := 0, domain := 1, owner := "alice", pid := "7",
                     t_pod := "", design := "D", elapsed_time := "--",
                     reserved_key := "--" }] }] }

/-- Witness for C3 at a concrete model, filter and domain. -/
theorem c3_partition_witness :
    (({ board := 0, domain := 0, owner := "NONE", pid := "--", t_pod := "",
        design := "D", elapsed_time := "--", reserved_key := "--" } : Domain)
          ∈ partitionModel.get_free_domains none
      ∨ ({ board := 0, domain := 0, owner := "NONE", pid := "--", t_pod := "",
           design := "D", elapsed_time := "--", reserved_key := "--" } : Domain)
          ∈ partitionModel.get_used_domains none)
      ↔ ({ board := 0, domain := 0, owner := "NONE", pid := "--", t_pod := "",
           design := "D", elapsed_time := "--", reserved_key := "--" } : Domain)
          ∈ (partitionModel.boards.filter (clusterOk none)).flatMap Board.domains :=
  (c3_partition partitionModel none).1
    { board := 0, domain := 0, owner := "NONE", pid := "--", t_pod := "",
      design := "D", elapsed_time := "--", reserved_key := "--" }
